import Mathlib

/-!
Verification development for the race-condition detection engine in
src/race_condition_detector.py.

Lines of source text are modelled as lists of character codes (`List Nat`,
one entry per character, ASCII code points for the inputs of interest).
Every matcher below is a direct shallow embedding of one of the regular
expressions or keyword checks used by `RaceConditionDetector`; the comments
on each definition name the pattern it embeds.  For each regex the embedding
is a deterministic matcher; determinism of the backtracking search is argued
in the comments where it is not obvious.
-/

namespace RaceTool

/-- A source line, as a list of character codes. -/
abbrev Line := List Nat

/-- Convert a Lean string literal to a `Line` (list of code points). -/
def str (s : String) : Line := s.data.map Char.toNat

/-- Code point of the single-quote character (39). -/
def apos : Nat := 39

/-- ASCII lowercasing of one character code, modelling Python `str.lower()`
on the ASCII inputs of interest. -/
def asciiLower (c : Nat) : Nat := if 65 ≤ c ∧ c ≤ 90 then c + 32 else c

/-- Lowercase a whole line, modelling `line.lower()`. -/
def lowerLine (l : Line) : Line := l.map asciiLower

/-- Whitespace characters, modelling the regex class `\s` and `str.strip`:
space, tab, newline, carriage return, vertical tab, form feed. -/
def isSpaceChar (c : Nat) : Bool :=
  c == 32 || c == 9 || c == 10 || c == 13 || c == 11 || c == 12

/-- Word characters, modelling the regex class `\w` (ASCII): digits,
letters, underscore. -/
def isWordChar (c : Nat) : Bool :=
  (48 ≤ c && c ≤ 57) || (65 ≤ c && c ≤ 90) || (97 ≤ c && c ≤ 122) || c == 95

/-- Drop leading whitespace, modelling a greedy `\s*` whose continuation
starts with a non-space character. -/
def dropSpaces (l : Line) : Line := l.dropWhile isSpaceChar

/-- Python `line.strip()`: remove leading and trailing whitespace. -/
def stripLine (l : Line) : Line :=
  ((l.dropWhile isSpaceChar).reverse.dropWhile isSpaceChar).reverse

/-- Does `s` start with `p` (exact, case-sensitive)? -/
def startsWithL : Line → Line → Bool
  | [], _ => true
  | _ :: _, [] => false
  | a :: p, b :: s => a == b && startsWithL p s

/-- Python substring test `p in s` (case-sensitive). -/
def hasSub (p : Line) : Line → Bool
  | [] => startsWithL p []
  | c :: t => startsWithL p (c :: t) || hasSub p t

/-- Consume the literal `p` from the front of `s` (exact), returning the
rest on success. -/
def dropPfx : Line → Line → Option Line
  | [], s => some s
  | _ :: _, [] => none
  | a :: p, b :: s => if a == b then dropPfx p s else none

/-- Consume the literal `p` from the front of `s`, comparing characters
after ASCII lowercasing on both sides (used for the case-insensitive
backreference `\1` under `re.IGNORECASE`). -/
def dropPfxCI : Line → Line → Option Line
  | [], s => some s
  | _ :: _, [] => none
  | a :: p, b :: s => if asciiLower a == asciiLower b then dropPfxCI p s else none

/-- `re.search` driver for a Boolean anchored matcher: try every start
position, left to right (including the end-of-line position). -/
def searchBy (p : Line → Bool) : Line → Bool
  | [] => p []
  | c :: t => p (c :: t) || searchBy p t

/-- `re.search` driver for an anchored matcher with one capture group:
the leftmost successful start position wins, as in Python. -/
def searchOptBy (p : Line → Option Line) : Line → Option Line
  | [] => p []
  | c :: t =>
    match p (c :: t) with
    | some g => some g
    | none => searchOptBy p t

/-! ### file_race patterns

Each of the five patterns in `patterns['file_race']` has the shape
`NAME\s*\([^)]*\)` for a literal NAME (`open`, `write`, `read`, `f.write`,
`f.read`), matched with `re.IGNORECASE`.  The anchored matcher is
deterministic: the greedy `\s*` must end at `(` (a non-space), and
`[^)]*\)` succeeds exactly when some `)` occurs in the rest of the line. -/

/-- Anchored matcher for `NAME\s*\([^)]*\)` on an already-lowercased line
(`name` is given in lowercase). -/
def callShapeAt (name : Line) (s : Line) : Bool :=
  match dropPfx name s with
  | none => false
  | some r =>
    match dropSpaces r with
    | [] => false
    | c :: rest => c == 40 && rest.contains 41

/-- `re.search(NAME + r'\s*\([^)]*\)', line, re.IGNORECASE)`: lowercase the
line and search for the lowercase pattern (all pattern literals are
case-closed, so IGNORECASE matching equals matching on the lowered line). -/
def matchCall (n : String) (l : Line) : Bool :=
  searchBy (callShapeAt (str n)) (lowerLine l)

/-- The five `file_race` pattern matchers, in source order. -/
def fileMatchers : List (Line → Bool) :=
  [matchCall ("open"), matchCall ("write"), matchCall ("read"),
   matchCall ("f.write"), matchCall ("f.read")]

/-! ### variable_race patterns

`patterns['variable_race']` holds four compound-assignment patterns
`(\w+)\s*OP=\s*\w+` for OP in `+ - * /` and the self-referential pattern
`(\w+)\s*=\s*\1\s*[+\-*/]\s*\w+`, all searched with `re.IGNORECASE` and the
first capture group extracted via `match.group(1)`.  The anchored matchers
are deterministic: a shorter-than-maximal `(\w+)` group leaves a word
character where the pattern next requires `OP` or `=` (neither is a word
character), so the greedy maximal group is the only candidate, and every
greedy `\s*` is followed by a non-space requirement. -/

/-- Anchored matcher for `(\w+)\s*OP=\s*\w+` (OP a single operator code),
returning the capture group from the original line. -/
def compoundAt (op : Nat) (s : Line) : Option Line :=
  let g := s.takeWhile isWordChar
  if g.isEmpty then none
  else
    match dropSpaces (s.dropWhile isWordChar) with
    | o :: e :: r =>
      if o == op && e == 61 then
        match dropSpaces r with
        | c :: _ => if isWordChar c then some g else none
        | [] => none
      else none
    | _ => none

/-- Anchored matcher for `(\w+)\s*=\s*\1\s*[+\-*/]\s*\w+`; the
backreference is compared case-insensitively (IGNORECASE), the capture is
returned in original case as `match.group(1)` does. -/
def selfAssignAt (s : Line) : Option Line :=
  let g := s.takeWhile isWordChar
  if g.isEmpty then none
  else
    match dropSpaces (s.dropWhile isWordChar) with
    | e :: r =>
      if e == 61 then
        match dropPfxCI g (dropSpaces r) with
        | some r2 =>
          match dropSpaces r2 with
          | o :: r3 =>
            if o == 43 || o == 45 || o == 42 || o == 47 then
              match dropSpaces r3 with
              | c :: _ => if isWordChar c then some g else none
              | [] => none
            else none
          | [] => none
        | none => none
      else none
    | [] => none

/-- The five `variable_race` pattern matchers, in source order
(`+=`, `-=`, `*=`, `/=`, self-referential assignment). -/
def varMatchers : List (Line → Option Line) :=
  [searchOptBy (compoundAt 43), searchOptBy (compoundAt 45),
   searchOptBy (compoundAt 42), searchOptBy (compoundAt 47),
   searchOptBy selfAssignAt]

/-! ### database_race patterns -/

/-- Models `\s+` followed by a continuation `p`: one mandatory whitespace
character, then the remaining (greedy, deterministic) whitespace run, then
`p` on the rest. -/
def spacesThen (p : Line → Bool) (s : Line) : Bool :=
  match s with
  | [] => false
  | c :: t => isSpaceChar c && p (dropSpaces t)

/-- Anchored matcher for `A\s+B` with literal words `A`, `B` (lowercase, on
a lowercased line): `INSERT\s+INTO`, `DELETE\s+FROM`, `BEGIN\s+TRANSACTION`. -/
def kwGapAt (a b : Line) (s : Line) : Bool :=
  match dropPfx a s with
  | none => false
  | some r => spacesThen (fun u => (dropPfx b u).isSome) r

/-- Anchored matcher for `UPDATE\s+\w+` (on a lowercased line). -/
def updateAt (s : Line) : Bool :=
  match dropPfx (str ("update")) s with
  | none => false
  | some r =>
    spacesThen (fun u => match u with | c :: _ => isWordChar c | [] => false) r

/-- Anchored matcher for `\s+FOR\s+UPDATE` (the part of the
select-for-update pattern after the `.*`). -/
def spForUpdAt (s : Line) : Bool :=
  match s with
  | [] => false
  | c :: t =>
    isSpaceChar c &&
      (match dropPfx (str ("for")) (dropSpaces t) with
       | some r => spacesThen (fun u => (dropPfx (str ("update")) u).isSome) r
       | none => false)

/-- Search for `\s+FOR\s+UPDATE` anywhere in `s` — this realises the
`.*\s+FOR\s+UPDATE` tail: the `.*` absorbs an arbitrary prefix. -/
def hasSpForUpd : Line → Bool
  | [] => false
  | c :: t => spForUpdAt (c :: t) || hasSpForUpd t

/-- Anchored matcher for `SELECT\s+.*\s+FOR\s+UPDATE` (lowercased line):
literal `select`, one mandatory whitespace character (the rest of the
`\s+` run is absorbed by `.*`), then `.*\s+FOR\s+UPDATE`. -/
def selectForUpdateAt (s : Line) : Bool :=
  match dropPfx (str ("select")) s with
  | none => false
  | some r =>
    match r with
    | [] => false
    | c :: t => isSpaceChar c && hasSpForUpd t

/-- The five `database_race` pattern matchers, in source order, each
searching the lowercased line per `re.IGNORECASE`. -/
def dbMatchers : List (Line → Bool) :=
  [fun l => searchBy (kwGapAt (str ("insert")) (str ("into"))) (lowerLine l),
   fun l => searchBy updateAt (lowerLine l),
   fun l => searchBy (kwGapAt (str ("delete")) (str ("from"))) (lowerLine l),
   fun l => searchBy selectForUpdateAt (lowerLine l),
   fun l => searchBy (kwGapAt (str ("begin")) (str ("transaction"))) (lowerLine l)]

/-! ### thread_race patterns

All five patterns (`threading\.Thread`, `concurrent\.futures`, `asyncio\.`,
`\.start\(\)`, `\.join\(\)`) are literal strings once the escapes are
removed, so IGNORECASE search is substring search of the lowercase literal
in the lowercased line. -/

/-- Case-insensitive literal substring search (`n` given in lowercase). -/
def matchLit (n : String) (l : Line) : Bool := hasSub (str n) (lowerLine l)

/-- The five `thread_race` pattern matchers, in source order. -/
def threadMatchers : List (Line → Bool) :=
  [matchLit ("threading.thread"), matchLit ("concurrent.futures"),
   matchLit ("asyncio."), matchLit (".start()"), matchLit (".join()")]

/-! ### Mitigation heuristics (windowed keyword checks) -/

/-- Does the lowercased line contain one of the vocabulary terms? Models
`any(keyword in lines[i].lower() for keyword in KEYWORDS)`. -/
def hasAnyKeyword (kws : List Line) (l : Line) : Bool :=
  kws.any (fun k => hasSub k (lowerLine l))

/-- Python `for i in range(lo, hi): ... lines[i] ...` turned into a single
`any` over the index range (0-based indices). -/
def checkWindow (lines : List Line) (lo hi : Nat) (kws : List Line) : Bool :=
  (List.range' lo (hi - lo)).any (fun j => hasAnyKeyword kws (lines[j]?.getD []))

/-- Vocabulary of `_check_for_locks`. -/
def lockKeywords : List Line :=
  [str ("lock"), str ("acquire"), str ("release"), str ("with")]

/-- `_check_for_locks(lines, line_num)`: scan 0-based indices
`range(max(0, line_num - 10), min(len(lines), line_num + 10))` for a lock
keyword (`line_num` is 1-based; truncated `Nat` subtraction realises the
`max(0, ...)`). -/
def check_for_locks (lines : List Line) (lineNum : Nat) : Bool :=
  checkWindow lines (lineNum - 10) (min lines.length (lineNum + 10)) lockKeywords

/-- Vocabulary of `_check_for_transactions`. -/
def transactionKeywords : List Line :=
  [str ("transaction"), str ("commit"), str ("rollback"), str ("begin"), str ("end")]

/-- `_check_for_transactions(lines, line_num)`: radius-20 window. -/
def check_for_transactions (lines : List Line) (lineNum : Nat) : Bool :=
  checkWindow lines (lineNum - 20) (min lines.length (lineNum + 20)) transactionKeywords

/-- Vocabulary of `_check_for_synchronization`. -/
def syncKeywords : List Line :=
  [str ("lock"), str ("semaphore"), str ("barrier"), str ("event"), str ("condition")]

/-- `_check_for_synchronization(lines, line_num)`: radius-20 window. -/
def check_for_synchronization (lines : List Line) (lineNum : Nat) : Bool :=
  checkWindow lines (lineNum - 20) (min lines.length (lineNum + 20)) syncKeywords

/-- `_is_in_threaded_context(lines, line_num)`: true when any line of the
file contains one of the indicators `threading`, `Thread`, `concurrent`,
`asyncio` as a case-sensitive substring (the `line_num` argument is unused
by the source). -/
def is_in_threaded_context (lines : List Line) : Bool :=
  lines.any (fun l =>
    hasSub (str ("threading")) l || hasSub (str ("Thread")) l ||
    hasSub (str ("concurrent")) l || hasSub (str ("asyncio")) l)

/-! ### Finding data model -/

/-- The `RaceCondition` dataclass. -/
structure RaceCondition where
  file_path : Line
  line_number : Nat
  race_type : Line
  description : Line
  severity : Line
  code_snippet : Line
  recommendations : List Line
  deriving DecidableEq, Repr

/-- Recommendations attached to File Operation Race findings. -/
def fileRecs : List Line :=
  [str ("Use file locking mechanisms"),
   str ("Implement proper error handling"),
   str ("Consider using atomic operations"),
   str ("Add retry logic with exponential backoff")]

/-- Recommendations attached to Variable Race findings. -/
def varRecs : List Line :=
  [str ("Use threading.Lock for variable access"),
   str ("Consider using atomic operations"),
   str ("Use thread-safe data structures"),
   str ("Implement proper synchronization")]

/-- Recommendations attached to Database Race findings. -/
def dbRecs : List Line :=
  [str ("Use database transactions"),
   str ("Implement proper rollback mechanisms"),
   str ("Add retry logic for failed operations"),
   str ("Consider using database-level locking")]

/-- Recommendations attached to Threading Race findings. -/
def threadRecs : List Line :=
  [str ("Use threading.Lock or threading.RLock"),
   str ("Consider using threading.Semaphore"),
   str ("Implement proper thread coordination"),
   str ("Use thread-safe data structures")]

/-- Recommendations attached to Missing Lock findings. -/
def missingRecs : List Line :=
  [str ("Add appropriate locks around shared resource access"),
   str ("Use context managers for lock management"),
   str ("Consider using atomic operations"),
   str ("Implement proper resource isolation")]

/-- The File Operation Race finding built at 1-based line `n` for line text
`l`. -/
def fileFinding (fp : Line) (n : Nat) (l : Line) : RaceCondition :=
  ⟨fp, n, str ("File Operation Race"),
   str ("File operation detected without proper synchronization"),
   str ("HIGH"), stripLine l, fileRecs⟩

/-- Description of a Variable Race finding: the f-string
`Variable {quote}{variable}{quote} modified without synchronization in threaded context`. -/
def varDesc (v : Line) : Line :=
  str ("Variable ") ++ [apos] ++ v ++ [apos] ++
    str (" modified without synchronization in threaded context")

/-- The Variable Race finding for captured variable `v` at line `n`. -/
def varFinding (fp : Line) (n : Nat) (v : Line) (l : Line) : RaceCondition :=
  ⟨fp, n, str ("Variable Race"), varDesc v, str ("MEDIUM"), stripLine l, varRecs⟩

/-- The Database Race finding at line `n`. -/
def dbFinding (fp : Line) (n : Nat) (l : Line) : RaceCondition :=
  ⟨fp, n, str ("Database Race"),
   str ("Database operation without proper transaction handling"),
   str ("HIGH"), stripLine l, dbRecs⟩

/-- The Threading Race finding at line `n`. -/
def threadFinding (fp : Line) (n : Nat) (l : Line) : RaceCondition :=
  ⟨fp, n, str ("Threading Race"),
   str ("Threading operation without proper synchronization"),
   str ("HIGH"), stripLine l, threadRecs⟩

/-- The Missing Lock finding at line `n`. -/
def missingFinding (fp : Line) (n : Nat) (l : Line) : RaceCondition :=
  ⟨fp, n, str ("Missing Lock"),
   str ("Shared resource accessed without proper locking"),
   str ("HIGH"), stripLine l, missingRecs⟩

/-! ### Category detectors -/

/-- Inner loop body shared by the file/database/threading detectors: for
each pattern in order, if the pattern matches the line and the guard is
false, emit the finding (`for pattern ...: if re.search(...): if not
guard: conditions.append(...)`).  One copy of the finding is appended per
matching pattern, as in the source. -/
def guardedInner (ms : List (Line → Bool)) (guard : Bool) (l : Line)
    (mk : RaceCondition) : List RaceCondition :=
  ms.filterMap (fun m => if m l then (if guard then none else some mk) else none)

/-- `for i, line in enumerate(lines, 1): conditions += inner(i, line)`:
runs `inner` on every line with its 1-based number, concatenating. -/
def perLineAux (inner : Nat → Line → List RaceCondition) :
    List Line → Nat → List RaceCondition
  | [], _ => []
  | l :: rest, n => inner n l ++ perLineAux inner rest (n + 1)

/-- `_detect_file_races(file_path, lines)`. -/
def detect_file_races (fp : Line) (lines : List Line) : List RaceCondition :=
  perLineAux (fun n l => guardedInner fileMatchers (check_for_locks lines n) l
    (fileFinding fp n l)) lines 1

/-- Inner loop body of `_detect_variable_races`: for each pattern in order,
take the first match and its group(1); emit a finding only when the file is
in a threaded context. -/
def varInner (fp : Line) (lines : List Line) (n : Nat) (l : Line) :
    List RaceCondition :=
  varMatchers.filterMap (fun m =>
    match m l with
    | some v => if is_in_threaded_context lines then some (varFinding fp n v l) else none
    | none => none)

/-- `_detect_variable_races(file_path, lines)`. -/
def detect_variable_races (fp : Line) (lines : List Line) : List RaceCondition :=
  perLineAux (varInner fp lines) lines 1

/-- `_detect_database_races(file_path, lines)`. -/
def detect_database_races (fp : Line) (lines : List Line) : List RaceCondition :=
  perLineAux (fun n l => guardedInner dbMatchers (check_for_transactions lines n) l
    (dbFinding fp n l)) lines 1

/-- `_detect_threading_races(file_path, lines)`. -/
def detect_threading_races (fp : Line) (lines : List Line) : List RaceCondition :=
  perLineAux (fun n l => guardedInner threadMatchers (check_for_synchronization lines n) l
    (threadFinding fp n l)) lines 1

/-! ### Threaded sections and shared-resource access -/

/-- Does the line contain one of the (case-sensitive) section keywords
`threading`, `Thread`, `concurrent` used by `_find_threaded_sections`? -/
def hasThreadKeyword (l : Line) : Bool :=
  hasSub (str ("threading")) l || hasSub (str ("Thread")) l ||
    hasSub (str ("concurrent")) l

/-- Python `line.strip() == ''`. -/
def isBlankLine (l : Line) : Bool := stripLine l == ([] : Line)

/-- State-passing loop of `_find_threaded_sections`: `n` is the 1-based
number of the head of the remaining lines, the `Option Nat` is the
`in_threaded_section`/`start_line` state. -/
def sectsAux : List Line → Nat → Option Nat → List (Nat × Nat)
  | [], _, _ => []
  | l :: rest, n, none =>
    if hasThreadKeyword l then sectsAux rest (n + 1) (some n)
    else sectsAux rest (n + 1) none
  | l :: rest, n, some s =>
    if hasThreadKeyword l then sectsAux rest (n + 1) (some s)
    else if isBlankLine l then (s, n) :: sectsAux rest (n + 1) none
    else sectsAux rest (n + 1) (some s)

/-- `_find_threaded_sections(lines)`. -/
def find_threaded_sections (lines : List Line) : List (Nat × Nat) :=
  sectsAux lines 1 none

/-- Anchored matcher for the shared-access shape
`\w+\s*[+\-*/]?=\s*\w+` (no IGNORECASE flag in the source; the pattern has
no cased literal anyway).  Deterministic for the same greediness reasons as
the variable_race matchers. -/
def sharedShapeAt (s : Line) : Bool :=
  let g := s.takeWhile isWordChar
  if g.isEmpty then false
  else
    match dropSpaces (s.dropWhile isWordChar) with
    | c :: r =>
      if c == 61 then
        match dropSpaces r with
        | d :: _ => isWordChar d
        | [] => false
      else if c == 43 || c == 45 || c == 42 || c == 47 then
        match r with
        | e :: r2 =>
          e == 61 &&
            (match dropSpaces r2 with
             | d :: _ => isWordChar d
             | [] => false)
        | [] => false
      else false
    | [] => false

/-- `_find_shared_resource_access(lines, start, end)`: the 1-based indices
`i` in `range(start, end)` whose line matches the shared-access shape. -/
def find_shared_resource_access (lines : List Line) (s e : Nat) : List Nat :=
  (List.range' s (e - s)).filter
    (fun i => searchBy sharedShapeAt (lines[i - 1]?.getD []))

/-- `_detect_missing_locks(file_path, lines)`. -/
def detect_missing_locks (fp : Line) (lines : List Line) : List RaceCondition :=
  ((find_threaded_sections lines).map (fun se =>
    (find_shared_resource_access lines se.1 se.2).map (fun n =>
      missingFinding fp n (lines[n - 1]?.getD [])))).flatten

/-! ### Scan orchestrator -/

/-- The five detectors run in source order over one file of lines. -/
def scan_lines (fp : Line) (lines : List Line) : List RaceCondition :=
  detect_file_races fp lines ++ detect_variable_races fp lines ++
    detect_database_races fp lines ++ detect_threading_races fp lines ++
    detect_missing_locks fp lines

/-- Python `content.split(chr(10))`. -/
def splitNl : Line → List Line
  | [] => [[]]
  | c :: t =>
    if c == 10 then [] :: splitNl t
    else
      match splitNl t with
      | h :: r => (c :: h) :: r
      | [] => [[c]]

/-- `scan_file(file_path)`: the file read is modelled by an `Option Line`
argument (`none` when the file cannot be opened or decoded, in which case
the `except` branch returns the empty list); otherwise the content is split
on newlines and the five detectors run. -/
def scan_file (fp : Line) (content : Option Line) : List RaceCondition :=
  match content with
  | none => []
  | some text => scan_lines fp (splitNl text)

/-! ### Report generator

`generate_report(conditions, output_format)` renders the same finding list
in two branches.  Each branch is modelled by its own structure holding
exactly the data that branch serializes, computed independently exactly as
in the source (each branch recomputes the severity counts from the list). -/

/-- The summary dict of the structured (`json`) branch. -/
structure ReportSummary where
  total_conditions : Nat
  high_severity : Nat
  medium_severity : Nat
  low_severity : Nat
  deriving DecidableEq, Repr

/-- One per-finding dict of the structured branch, keys in source order. -/
structure CondEntry where
  file_path : Line
  line_number : Nat
  race_type : Line
  description : Line
  severity : Line
  code_snippet : Line
  recommendations : List Line
  deriving DecidableEq, Repr

/-- The structured (`json`) report object. -/
structure JsonReport where
  summary : ReportSummary
  conditions : List CondEntry
  deriving DecidableEq, Repr

/-- The `output_format == 'json'` branch of `generate_report`. -/
def jsonReport (conds : List RaceCondition) : JsonReport :=
  ⟨⟨conds.length,
    (conds.filter (fun c => c.severity == str ("HIGH"))).length,
    (conds.filter (fun c => c.severity == str ("MEDIUM"))).length,
    (conds.filter (fun c => c.severity == str ("LOW"))).length⟩,
   conds.map (fun c =>
     ⟨c.file_path, c.line_number, c.race_type, c.description, c.severity,
      c.code_snippet, c.recommendations⟩)⟩

/-- One per-finding block of the plain-text branch, fields in the order the
text rendering prints them (file:line, type, severity, description, code,
recommendations). -/
structure TextBlock where
  loc_file : Line
  loc_line : Nat
  block_type : Line
  block_severity : Line
  block_description : Line
  block_code : Line
  block_recs : List Line
  deriving DecidableEq, Repr

/-- The content of the `output_format == 'text'` branch: header counts
followed by one block per finding. -/
structure TextReport where
  total_found : Nat
  high_count : Nat
  medium_count : Nat
  low_count : Nat
  blocks : List TextBlock
  deriving DecidableEq, Repr

/-- The `output_format == 'text'` branch of `generate_report`, which
recomputes the counts with the same comprehensions and walks the same list. -/
def textReport (conds : List RaceCondition) : TextReport :=
  ⟨conds.length,
   (conds.filter (fun c => c.severity == str ("HIGH"))).length,
   (conds.filter (fun c => c.severity == str ("MEDIUM"))).length,
   (conds.filter (fun c => c.severity == str ("LOW"))).length,
   conds.map (fun c =>
     ⟨c.file_path, c.line_number, c.race_type, c.severity, c.description,
      c.code_snippet, c.recommendations⟩)⟩

/-! ### Helper lemmas -/

/-- Congruence for `List.any` under a pointwise-equal predicate. -/
theorem anyCongr {α : Type} (l : List α) {p q : α → Bool}
    (h : ∀ x ∈ l, p x = q x) : l.any p = l.any q := by
  induction l with
  | nil => rfl
  | cons a t ih =>
    simp only [List.any_cons, h a (List.mem_cons_self a t)]
    rw [ih (fun x hx => h x (List.mem_cons_of_mem a hx))]

/-- Every element of a `guardedInner` result is the supplied finding. -/
theorem mem_guardedInner {ms : List (Line → Bool)} {guard : Bool} {l : Line}
    {mk c : RaceCondition} (h : c ∈ guardedInner ms guard l mk) : c = mk := by
  rw [guardedInner, List.mem_filterMap] at h
  obtain ⟨m, _, hsome⟩ := h
  by_cases h1 : m l = true
  · rw [if_pos h1] at hsome
    by_cases h2 : guard = true
    · rw [if_pos h2] at hsome; exact absurd hsome (by simp)
    · rw [if_neg h2] at hsome; exact (Option.some_injective _ hsome).symm
  · rw [if_neg h1] at hsome; exact absurd hsome (by simp)

/-- A true guard suppresses every finding of `guardedInner`. -/
theorem guardedInner_true (ms : List (Line → Bool)) (l : Line) (mk : RaceCondition) :
    guardedInner ms true l mk = [] := by
  rw [guardedInner, List.filterMap_eq_nil_iff]
  intro m hm
  by_cases h1 : m l = true
  · rw [if_pos h1, if_pos rfl]
  · rw [if_neg h1]

/-- Introduction rule for `guardedInner` membership. -/
theorem guardedInner_mem_of {ms : List (Line → Bool)} {guard : Bool} {l : Line}
    {mk : RaceCondition} {m : Line → Bool} (hm : m ∈ ms) (hml : m l = true)
    (hg : guard = false) : mk ∈ guardedInner ms guard l mk := by
  rw [guardedInner, List.mem_filterMap]
  exact ⟨m, hm, by rw [if_pos hml, hg, if_neg (by simp)]⟩

/-- If every per-line contribution is empty, the whole loop is empty. -/
theorem perAux_nil {inner : Nat → Line → List RaceCondition}
    (h : ∀ n l, inner n l = []) :
    ∀ (rest : List Line) (n0 : Nat), perLineAux inner rest n0 = [] := by
  intro rest
  induction rest with
  | nil => intro n0; rfl
  | cons l t ih => intro n0; simp [perLineAux, h, ih]

/-- Elements produced by the enumerate loop carry line numbers at least the
starting number, provided the inner body stamps its own line number. -/
theorem perAux_lb {inner : Nat → Line → List RaceCondition}
    (hln : ∀ n l c, c ∈ inner n l → c.line_number = n) :
    ∀ (rest : List Line) (n0 : Nat) (c : RaceCondition),
      c ∈ perLineAux inner rest n0 → n0 ≤ c.line_number := by
  intro rest
  induction rest with
  | nil => intro n0 c h; exact absurd h (by simp [perLineAux])
  | cons l t ih =>
    intro n0 c h
    rw [perLineAux, List.mem_append] at h
    rcases h with h | h
    · exact (hln n0 l c h).ge
    · exact Nat.le_of_succ_le (ih (n0 + 1) c h)

/-- Membership introduction for the enumerate loop: a finding contributed
by the line at offset `k` is in the overall result. -/
theorem perAux_mem_of {inner : Nat → Line → List RaceCondition} :
    ∀ (rest : List Line) (n0 k : Nat) (l : Line) (c : RaceCondition),
      rest[k]? = some l → c ∈ inner (n0 + k) l → c ∈ perLineAux inner rest n0 := by
  intro rest
  induction rest with
  | nil => intro n0 k l c h; simp at h
  | cons x t ih =>
    intro n0 k l c hk hc
    rw [perLineAux, List.mem_append]
    match k with
    | 0 =>
      left
      simp only [List.getElem?_cons_zero, Option.some.injEq] at hk
      subst hk
      simpa using hc
    | k + 1 =>
      right
      simp only [List.getElem?_cons_succ] at hk
      exact ih (n0 + 1) k l c hk (by
        have : n0 + 1 + k = n0 + (k + 1) := by omega
        rw [this]; exact hc)

/-- Filtering the loop output down to one line number yields exactly the
contribution of that line. -/
theorem perAux_filter_at {inner : Nat → Line → List RaceCondition}
    (hln : ∀ n l c, c ∈ inner n l → c.line_number = n) :
    ∀ (rest : List Line) (n0 t : Nat) (l : Line), n0 ≤ t → rest[t - n0]? = some l →
      (perLineAux inner rest n0).filter (fun c => c.line_number == t) = inner t l := by
  intro rest
  induction rest with
  | nil => intro n0 t l _ h; simp at h
  | cons x rest' ih =>
    intro n0 t l hle hget
    rw [perLineAux, List.filter_append]
    by_cases ht : t = n0
    · subst ht
      simp only [Nat.sub_self, List.getElem?_cons_zero, Option.some.injEq] at hget
      subst hget
      have h1 : (inner t x).filter (fun c => c.line_number == t) = inner t x :=
        List.filter_eq_self.mpr (fun c hc => by simp [hln t x c hc])
      have h2 : (perLineAux inner rest' (t + 1)).filter (fun c => c.line_number == t) = [] := by
        rw [List.filter_eq_nil_iff]
        intro c hc
        have := perAux_lb hln rest' (t + 1) c hc
        simp only [beq_iff_eq]
        omega
      rw [h1, h2, List.append_nil]
    · have hlt : n0 < t := Nat.lt_of_le_of_ne hle (fun h => ht h.symm)
      have h1 : (inner n0 x).filter (fun c => c.line_number == t) = [] := by
        rw [List.filter_eq_nil_iff]
        intro c hc
        have := hln n0 x c hc
        simp only [beq_iff_eq]
        omega
      have hget' : rest'[t - (n0 + 1)]? = some l := by
        have : t - n0 = (t - (n0 + 1)) + 1 := by omega
        rw [this, List.getElem?_cons_succ] at hget
        exact hget
      rw [h1, List.nil_append]
      exact ih (n0 + 1) t l (by omega) hget'

/-- Any property preserved by every inner contribution holds of the loop
output. -/
theorem perAux_pres {inner : Nat → Line → List RaceCondition}
    {P : RaceCondition → Prop} (h : ∀ n l c, c ∈ inner n l → P c) :
    ∀ (rest : List Line) (n0 : Nat) (c : RaceCondition),
      c ∈ perLineAux inner rest n0 → P c := by
  intro rest
  induction rest with
  | nil => intro n0 c hc; exact absurd hc (by simp [perLineAux])
  | cons l t ih =>
    intro n0 c hc
    rw [perLineAux, List.mem_append] at hc
    rcases hc with hc | hc
    · exact h n0 l c hc
    · exact ih (n0 + 1) c hc

/-- Unfolding of the windowed keyword check as an existence statement over
0-based indices. -/
theorem checkWindow_iff {lines : List Line} {lo hi : Nat} {kws : List Line} :
    checkWindow lines lo hi kws = true ↔
      ∃ j, lo ≤ j ∧ j < hi ∧ hasAnyKeyword kws (lines[j]?.getD []) = true := by
  rw [checkWindow, List.any_eq_true]
  constructor
  · rintro ⟨j, hj, hp⟩
    have hb := List.mem_range'_1.mp hj
    exact ⟨j, by omega, by omega, hp⟩
  · rintro ⟨j, h1, h2, hp⟩
    exact ⟨j, List.mem_range'_1.mpr (by omega), hp⟩

/-- Every Variable Race contribution stems from a matcher with a capture
and a threaded context. -/
theorem mem_varInner {fp : Line} {lines : List Line} {n : Nat} {l : Line}
    {c : RaceCondition} (h : c ∈ varInner fp lines n l) :
    ∃ v, c = varFinding fp n v l ∧ is_in_threaded_context lines = true := by
  rw [varInner, List.mem_filterMap] at h
  obtain ⟨m, _, hsome⟩ := h
  cases hv : m l with
  | none => rw [hv] at hsome; exact absurd hsome (by simp)
  | some v =>
    rw [hv] at hsome
    dsimp only at hsome
    by_cases hctx : is_in_threaded_context lines = true
    · rw [if_pos hctx] at hsome
      exact ⟨v, (Option.some_injective _ hsome).symm, hctx⟩
    · rw [if_neg hctx] at hsome; exact absurd hsome (by simp)

/-- Introduction rule for Variable Race contributions. -/
theorem varInner_mem_of {fp : Line} {lines : List Line} {n : Nat} {l : Line}
    {m : Line → Option Line} (hm : m ∈ varMatchers) {v : Line} (hv : m l = some v)
    (hctx : is_in_threaded_context lines = true) :
    varFinding fp n v l ∈ varInner fp lines n l := by
  rw [varInner, List.mem_filterMap]
  exact ⟨m, hm, by rw [hv]; dsimp only; rw [if_pos hctx]⟩

/-- Outside a threaded context the Variable Race detector is silent. -/
theorem varInner_nil {fp : Line} {lines : List Line}
    (hctx : is_in_threaded_context lines = false) (n : Nat) (l : Line) :
    varInner fp lines n l = [] := by
  rw [varInner, List.filterMap_eq_nil_iff]
  intro m _
  cases hv : m l with
  | none => rfl
  | some v => dsimp only; rw [if_neg (by rw [hctx]; simp)]

/-- Characters of a matched exact prefix all satisfy any predicate that
every character of the searched line satisfies. -/
theorem startsWith_all {q : Nat → Bool} :
    ∀ {p s : Line}, startsWithL p s = true → s.all q = true → p.all q = true := by
  intro p
  induction p with
  | nil => intro s _ _; rfl
  | cons a p ih =>
    intro s hp hs
    cases s with
    | nil => exact absurd hp (by simp [startsWithL])
    | cons b s =>
      rw [startsWithL, Bool.and_eq_true] at hp
      rw [List.all_cons, Bool.and_eq_true] at hs
      rw [List.all_cons, Bool.and_eq_true]
      exact ⟨by rw [eq_of_beq hp.1]; exact hs.1, ih hp.2 hs.2⟩

/-- Characters of a matched substring all satisfy any predicate that every
character of the searched line satisfies. -/
theorem hasSub_all {q : Nat → Bool} {p : Line} :
    ∀ {s : Line}, hasSub p s = true → s.all q = true → p.all q = true := by
  intro s
  induction s with
  | nil => intro hp _; exact startsWith_all hp rfl
  | cons c t ih =>
    intro hp hs
    rw [hasSub, Bool.or_eq_true] at hp
    rw [List.all_cons, Bool.and_eq_true] at hs
    rcases hp with hp | hp
    · exact startsWith_all hp (by rw [List.all_cons, Bool.and_eq_true]; exact ⟨hs.1, hs.2⟩)
    · exact ih hp hs.2

/-- A line is blank (`line.strip() == chr(39).join([])`) exactly when all
its characters are whitespace. -/
theorem blank_iff_all_space (l : Line) :
    isBlankLine l = true ↔ l.all isSpaceChar = true := by
  rw [isBlankLine, stripLine, beq_iff_eq, List.reverse_eq_nil_iff,
    List.dropWhile_eq_nil_iff]
  constructor
  · intro h
    rw [List.all_eq_true]
    intro x hx
    by_cases hx2 : x ∈ l.dropWhile isSpaceChar
    · exact h x (by simpa using hx2)
    · have hsplit := List.takeWhile_append_dropWhile (p := isSpaceChar) (l := l)
      rw [← hsplit, List.mem_append] at hx
      rcases hx with hx | hx
      · exact List.mem_takeWhile_imp hx
      · exact absurd hx hx2
  · intro h x hx
    rw [List.mem_reverse] at hx
    have : x ∈ l := (List.dropWhile_sublist isSpaceChar).mem hx
    exact List.all_eq_true.mp h x this

/-- A line containing one of the threaded-section keywords is not blank. -/
theorem keyword_not_blank {l : Line} (h : hasThreadKeyword l = true) :
    isBlankLine l = false := by
  cases hx : isBlankLine l with
  | false => rfl
  | true =>
    have hall : l.all isSpaceChar = true := (blank_iff_all_space l).mp hx
    rw [hasThreadKeyword] at h
    simp only [Bool.or_eq_true] at h
    rcases h with (h | h) | h
    · exact absurd (hasSub_all h hall) (by decide)
    · exact absurd (hasSub_all h hall) (by decide)
    · exact absurd (hasSub_all h hall) (by decide)

/-- Main invariant of the `_find_threaded_sections` loop, parameterised by
the remaining lines, the current 1-based line number and the
`in_threaded_section` state. -/
theorem sectsAux_spec (lines : List Line) :
    ∀ (rest : List Line) (n : Nat) (st : Option Nat),
      1 ≤ n → rest = lines.drop (n - 1) →
      (∀ s, st = some s →
        1 ≤ s ∧ s < n ∧ hasThreadKeyword (lines[s - 1]?.getD []) = true ∧
        ∀ k, s ≤ k → k < n → isBlankLine (lines[k - 1]?.getD []) = false) →
      (∀ se ∈ sectsAux rest n st,
        st.getD n ≤ se.1 ∧
        1 ≤ se.1 ∧ se.1 < se.2 ∧ se.2 ≤ lines.length ∧
        hasThreadKeyword (lines[se.1 - 1]?.getD []) = true ∧
        isBlankLine (lines[se.2 - 1]?.getD []) = true ∧
        ∀ k, se.1 ≤ k → k < se.2 → isBlankLine (lines[k - 1]?.getD []) = false) ∧
      List.Pairwise (fun a b => a.2 < b.1) (sectsAux rest n st) := by
  intro rest
  induction rest with
  | nil =>
    intro n st _ _ _
    constructor
    · intro se hse
      cases st <;> exact absurd hse (by simp [sectsAux])
    · cases st <;> simp [sectsAux]
  | cons l rest' ih =>
    intro n st hn hrest hst
    have hd : lines.drop (n - 1) = l :: rest' := hrest.symm
    have hl : lines[n - 1]? = some l := by
      have h0 := List.getElem?_drop lines (n - 1) 0
      rw [hd] at h0
      simpa using h0.symm
    have hlget : lines[n - 1]?.getD [] = l := by rw [hl]; rfl
    have hrest' : rest' = lines.drop n := by
      have h1 : List.drop 1 (List.drop (n - 1) lines) = List.drop (n - 1 + 1) lines :=
        List.drop_drop 1 (n - 1) lines
      rw [hd] at h1
      have h2 : n - 1 + 1 = n := by omega
      rw [h2] at h1
      simpa using h1
    have hnlt : n - 1 < lines.length := (List.getElem?_eq_some.mp hl).1
    cases st with
    | none =>
      by_cases hkw : hasThreadKeyword l = true
      · have hrec := ih (n + 1) (some n) (by omega) (by rw [hrest', Nat.add_sub_cancel])
          (by
            intro s hs
            injection hs with hs
            subst hs
            refine ⟨by omega, by omega, by rw [hlget]; exact hkw, ?_⟩
            intro k hk1 hk2
            have : k = n := by omega
            subst this
            rw [hlget]
            exact keyword_not_blank hkw)
        rw [sectsAux, if_pos hkw]
        refine ⟨?_, hrec.2⟩
        intro se hse
        have h := hrec.1 se hse
        exact ⟨h.1, h.2⟩
      · have hrec := ih (n + 1) none (by omega) (by rw [hrest', Nat.add_sub_cancel])
          (by intro s hs; exact absurd hs (by simp))
        rw [sectsAux, if_neg hkw]
        refine ⟨?_, hrec.2⟩
        intro se hse
        have h := hrec.1 se hse
        refine ⟨?_, h.2⟩
        have hlb : n + 1 ≤ se.1 := h.1
        show n ≤ se.1
        omega
    | some s =>
      obtain ⟨hs1, hs2, hs3, hs4⟩ := hst s rfl
      by_cases hkw : hasThreadKeyword l = true
      · have hrec := ih (n + 1) (some s) (by omega) (by rw [hrest', Nat.add_sub_cancel])
          (by
            intro s' hs'
            injection hs' with hs'
            subst hs'
            refine ⟨hs1, by omega, hs3, ?_⟩
            intro k hk1 hk2
            by_cases hkn : k = n
            · subst hkn; rw [hlget]; exact keyword_not_blank hkw
            · exact hs4 k hk1 (by omega))
        rw [sectsAux, if_pos hkw]
        exact hrec
      · by_cases hbl : isBlankLine l = true
        · have hrec := ih (n + 1) none (by omega) (by rw [hrest', Nat.add_sub_cancel])
            (by intro s' hs'; exact absurd hs' (by simp))
          rw [sectsAux, if_neg hkw, if_pos hbl]
          constructor
          · intro se hse
            rcases List.mem_cons.mp hse with hse | hse
            · subst hse
              exact ⟨le_refl s, hs1, hs2, by omega, hs3, by rw [hlget]; exact hbl, hs4⟩
            · have h := hrec.1 se hse
              have hlb : n + 1 ≤ se.1 := h.1
              exact ⟨show s ≤ se.1 by omega, h.2⟩
          · rw [List.pairwise_cons]
            refine ⟨?_, hrec.2⟩
            intro se hse
            have h := hrec.1 se hse
            have hlb : n + 1 ≤ se.1 := h.1
            show n < se.1
            omega
        · have hbl' : isBlankLine l = false := by
            cases hx : isBlankLine l
            · rfl
            · exact absurd hx hbl
          have hrec := ih (n + 1) (some s) (by omega) (by rw [hrest', Nat.add_sub_cancel])
            (by
              intro s' hs'
              injection hs' with hs'
              subst hs'
              refine ⟨hs1, by omega, hs3, ?_⟩
              intro k hk1 hk2
              by_cases hkn : k = n
              · subst hkn; rw [hlget]; exact hbl'
              · exact hs4 k hk1 (by omega))
          rw [sectsAux, if_neg hkw, if_neg hbl]
          exact hrec

/-! ### Lowercasing invariance for the case-insensitive matchers -/

/-- ASCII lowercasing is idempotent. -/
theorem asciiLower_idem (c : Nat) : asciiLower (asciiLower c) = asciiLower c := by
  rw [asciiLower, asciiLower]
  split_ifs <;> omega

/-- Lowercasing a whole line is idempotent. -/
theorem lowerLine_idem (l : Line) : lowerLine (lowerLine l) = lowerLine l := by
  rw [lowerLine, lowerLine, List.map_map]
  exact List.map_congr_left (fun c _ => asciiLower_idem c)

/-- Every file_race matcher gives the same verdict on the lowercased line. -/
theorem fileMatchers_lower {m : Line → Bool} (hm : m ∈ fileMatchers) (l : Line) :
    m (lowerLine l) = m l := by
  simp only [fileMatchers, List.mem_cons, List.not_mem_nil, or_false] at hm
  rcases hm with rfl | rfl | rfl | rfl | rfl <;>
    simp only [matchCall, lowerLine_idem]

/-- Every database_race matcher gives the same verdict on the lowercased
line. -/
theorem dbMatchers_lower {m : Line → Bool} (hm : m ∈ dbMatchers) (l : Line) :
    m (lowerLine l) = m l := by
  simp only [dbMatchers, List.mem_cons, List.not_mem_nil, or_false] at hm
  rcases hm with rfl | rfl | rfl | rfl | rfl <;>
    simp only [lowerLine_idem]

/-- Every thread_race matcher gives the same verdict on the lowercased
line. -/
theorem threadMatchers_lower {m : Line → Bool} (hm : m ∈ threadMatchers) (l : Line) :
    m (lowerLine l) = m l := by
  simp only [threadMatchers, List.mem_cons, List.not_mem_nil, or_false] at hm
  rcases hm with rfl | rfl | rfl | rfl | rfl <;>
    simp only [matchLit, lowerLine_idem]

/-- The keyword vocabularies look only at the lowercased line, so they are
insensitive to pre-lowercasing. -/
theorem hasAnyKeyword_lower (kws : List Line) (l : Line) :
    hasAnyKeyword kws (lowerLine l) = hasAnyKeyword kws l := by
  rw [hasAnyKeyword, hasAnyKeyword]
  exact anyCongr kws (fun k _ => by rw [lowerLine_idem])

/-- The windowed keyword check is insensitive to lowercasing all lines. -/
theorem checkWindow_lower (lines : List Line) (lo hi : Nat) (kws : List Line) :
    checkWindow (lines.map lowerLine) lo hi kws = checkWindow lines lo hi kws := by
  rw [checkWindow, checkWindow]
  apply anyCongr
  intro j _
  rw [List.getElem?_map]
  cases h : lines[j]? with
  | none => rfl
  | some l => simp [hasAnyKeyword_lower]

/-- `_check_for_locks` is insensitive to lowercasing all lines. -/
theorem check_for_locks_lower (lines : List Line) (n : Nat) :
    check_for_locks (lines.map lowerLine) n = check_for_locks lines n := by
  rw [check_for_locks, check_for_locks, List.length_map, checkWindow_lower]

/-- `_check_for_transactions` is insensitive to lowercasing all lines. -/
theorem check_for_transactions_lower (lines : List Line) (n : Nat) :
    check_for_transactions (lines.map lowerLine) n = check_for_transactions lines n := by
  rw [check_for_transactions, check_for_transactions, List.length_map, checkWindow_lower]

/-- `_check_for_synchronization` is insensitive to lowercasing all lines. -/
theorem check_for_synchronization_lower (lines : List Line) (n : Nat) :
    check_for_synchronization (lines.map lowerLine) n = check_for_synchronization lines n := by
  rw [check_for_synchronization, check_for_synchronization, List.length_map, checkWindow_lower]

/-- The (line number, category, severity) portion of a finding — the data
compared by the case-insensitivity claim. -/
def sevTriple (c : RaceCondition) : Nat × Line × Line :=
  (c.line_number, c.race_type, c.severity)

/-- The guarded inner loop produces triple-wise equal output under
pointwise-equal matchers, equal guards and triple-equal findings. -/
theorem guardedInner_map_triple {ms : List (Line → Bool)} {g g' : Bool}
    {l l' : Line} {mk mk' : RaceCondition}
    (hms : ∀ m ∈ ms, m l' = m l) (hg : g' = g) (hmk : sevTriple mk' = sevTriple mk) :
    (guardedInner ms g' l' mk').map sevTriple = (guardedInner ms g l mk).map sevTriple := by
  induction ms with
  | nil => rfl
  | cons m t ih =>
    have hm := hms m (List.mem_cons_self m t)
    have ht := ih (fun x hx => hms x (List.mem_cons_of_mem m hx))
    rw [guardedInner, guardedInner] at ht
    rw [guardedInner, guardedInner, List.filterMap_cons, List.filterMap_cons]
    by_cases h1 : m l = true
    · by_cases h2 : g = true
      · have e1 : (if m l' = true then (if g' = true then none else some mk') else none) =
            (none : Option RaceCondition) := by rw [hm, hg, if_pos h1, if_pos h2]
        have e2 : (if m l = true then (if g = true then none else some mk) else none) =
            (none : Option RaceCondition) := by rw [if_pos h1, if_pos h2]
        rw [e1, e2]
        exact ht
      · have e1 : (if m l' = true then (if g' = true then none else some mk') else none) =
            some mk' := by rw [hm, hg, if_pos h1, if_neg h2]
        have e2 : (if m l = true then (if g = true then none else some mk) else none) =
            some mk := by rw [if_pos h1, if_neg h2]
        rw [e1, e2]
        dsimp only
        rw [List.map_cons, List.map_cons, hmk, ht]
    · have e1 : (if m l' = true then (if g' = true then none else some mk') else none) =
          (none : Option RaceCondition) := by rw [hm, if_neg h1]
      have e2 : (if m l = true then (if g = true then none else some mk) else none) =
          (none : Option RaceCondition) := by rw [if_neg h1]
      rw [e1, e2]
      exact ht

/-- Lifting a triple-wise inner-loop equality through the enumerate loop
over lowercased lines. -/
theorem perAux_map_triple {inner inner' : Nat → Line → List RaceCondition}
    (h : ∀ n l, (inner' n (lowerLine l)).map sevTriple = (inner n l).map sevTriple) :
    ∀ (rest : List Line) (n0 : Nat),
      (perLineAux inner' (rest.map lowerLine) n0).map sevTriple =
        (perLineAux inner rest n0).map sevTriple := by
  intro rest
  induction rest with
  | nil => intro n0; rfl
  | cons l t ih =>
    intro n0
    rw [List.map_cons, perLineAux, perLineAux, List.map_append, List.map_append,
      h n0 l, ih (n0 + 1)]

/-! ### Remaining shared helper lemmas -/

/-- File-race inner contributions carry their own line number. -/
theorem fileInner_line_number (fp : Line) (lines : List Line) :
    ∀ (n : Nat) (l : Line) (c : RaceCondition),
      c ∈ guardedInner fileMatchers (check_for_locks lines n) l (fileFinding fp n l) →
      c.line_number = n := by
  intro n l c hc
  rw [mem_guardedInner hc]
  rfl

/-- Variable-race inner contributions carry their own line number. -/
theorem varInner_line_number (fp : Line) (lines : List Line) :
    ∀ (n : Nat) (l : Line) (c : RaceCondition),
      c ∈ varInner fp lines n l → c.line_number = n := by
  intro n l c hc
  obtain ⟨v, rfl, _⟩ := mem_varInner hc
  rfl

/-- Filtering for a line number outside the enumerated range gives
nothing. -/
theorem perAux_filter_out {inner : Nat → Line → List RaceCondition}
    (hln : ∀ n l c, c ∈ inner n l → c.line_number = n) :
    ∀ (rest : List Line) (n0 t : Nat), (t < n0 ∨ n0 + rest.length ≤ t) →
      (perLineAux inner rest n0).filter (fun c => c.line_number == t) = [] := by
  intro rest
  induction rest with
  | nil => intro n0 t _; rfl
  | cons x rest' ih =>
    intro n0 t h
    simp only [List.length_cons] at h
    rw [perLineAux, List.filter_append]
    have h1 : (inner n0 x).filter (fun c => c.line_number == t) = [] := by
      rw [List.filter_eq_nil_iff]
      intro c hc
      have hcn := hln n0 x c hc
      simp only [beq_iff_eq, hcn]
      omega
    rw [h1, List.nil_append]
    exact ih (n0 + 1) t (by omega)

/-- Every finding produced by a full scan has severity HIGH or MEDIUM. -/
theorem scan_sev (fp : Line) (lines : List Line) (c : RaceCondition)
    (h : c ∈ scan_lines fp lines) :
    c.severity = str ("HIGH") ∨ c.severity = str ("MEDIUM") := by
  rw [scan_lines] at h
  simp only [List.mem_append] at h
  rcases h with (((h | h) | h) | h) | h
  · rw [detect_file_races] at h
    refine Or.inl (@perAux_pres _ (fun c => c.severity = str ("HIGH")) ?_ lines 1 c h)
    intro n l c hc
    rw [mem_guardedInner hc]
    rfl
  · rw [detect_variable_races] at h
    refine Or.inr (@perAux_pres _ (fun c => c.severity = str ("MEDIUM")) ?_ lines 1 c h)
    intro n l c hc
    obtain ⟨v, rfl, _⟩ := mem_varInner hc
    rfl
  · rw [detect_database_races] at h
    refine Or.inl (@perAux_pres _ (fun c => c.severity = str ("HIGH")) ?_ lines 1 c h)
    intro n l c hc
    rw [mem_guardedInner hc]
    rfl
  · rw [detect_threading_races] at h
    refine Or.inl (@perAux_pres _ (fun c => c.severity = str ("HIGH")) ?_ lines 1 c h)
    intro n l c hc
    rw [mem_guardedInner hc]
    rfl
  · rw [detect_missing_locks, List.mem_flatten] at h
    obtain ⟨L, hL, hc⟩ := h
    rw [List.mem_map] at hL
    obtain ⟨se, _, rfl⟩ := hL
    rw [List.mem_map] at hc
    obtain ⟨n, _, rfl⟩ := hc
    exact Or.inl rfl

/-- A finding list whose severities all lie in {HIGH, MEDIUM} partitions
into the three severity filters. -/
theorem count_partition (L : List RaceCondition)
    (h : ∀ c ∈ L, c.severity = str ("HIGH") ∨ c.severity = str ("MEDIUM")) :
    (L.filter (fun c => c.severity == str ("HIGH"))).length +
      (L.filter (fun c => c.severity == str ("MEDIUM"))).length +
      (L.filter (fun c => c.severity == str ("LOW"))).length = L.length := by
  induction L with
  | nil => rfl
  | cons c t ih =>
    have hc := h c (List.mem_cons_self c t)
    have ih' := ih (fun x hx => h x (List.mem_cons_of_mem c hx))
    have eHM : (str ("HIGH") == str ("MEDIUM")) = false := by decide
    have eHL : (str ("HIGH") == str ("LOW")) = false := by decide
    have eMH : (str ("MEDIUM") == str ("HIGH")) = false := by decide
    have eML : (str ("MEDIUM") == str ("LOW")) = false := by decide
    have eHH : (str ("HIGH") == str ("HIGH")) = true := by decide
    have eMM : (str ("MEDIUM") == str ("MEDIUM")) = true := by decide
    rcases hc with hc | hc <;>
      simp only [List.filter_cons, hc, eHM, eHL, eMH, eML, eHH, eMM,
        Bool.false_eq_true, if_false, if_true, List.length_cons] <;>
      omega

/-! ### Concrete inputs used by counterexamples and witnesses -/

/-- The line `open(` + quote + `f` + quote + `,` + quote + `a` + quote +
`)` from the spec, built from character codes. -/
def openFA : Line :=
  str ("open(") ++ [apos] ++ str ("f") ++ [apos, 44, apos] ++ str ("a") ++ [apos, 41]

/-- Two lines: a compound assignment and a `.start()` call. -/
def exC1 : List Line := [str ("counter += 1"), str ("t.start()")]

/-- Two lines: a compound assignment and an import of the threading
module. -/
def exC1W : List Line := [str ("counter += 1"), str ("import threading")]

/-- Eleven lines: `lock` on line 1, filler, an open call on line 11. -/
def exC2 : List Line :=
  [str ("lock"), str ("x"), str ("x"), str ("x"), str ("x"), str ("x"), str ("x"),
   str ("x"), str ("x"), str ("x"), openFA]

/-- Two lines: `lock` then an open call. -/
def exC2W : List Line := [str ("lock"), openFA]

/-- A threaded region holding only a method call with no `=`. -/
def exC4 : List Line := [str ("threading"), str ("shared_data.append(item)"), str ("")]

/-- A threaded region holding an assignment, with a lock mentioned on a
later line outside the region. -/
def exC4W : List Line :=
  [str ("threading.Thread"), str ("x = y"), str (""), str ("lock.acquire()")]

/-- A minimal threaded region for the section-invariant witness. -/
def exC5 : List Line := [str ("threading.Thread"), str ("x = y"), str ("")]

/-- Two lines whose scan outcome changes under lowercasing. -/
def exC8 : List Line := [str ("counter += 1"), str ("Thread")]

/-- One line using the scoped-resource idiom. -/
def exC10 : List Line := [str ("with open(x) as g:")]

/-! ### Claim C1 -/

/-- C1 (counterexample): the line `counter += 1` matches a variable_race
pattern capturing `counter`, and the file contains the thread-construct
token `.start()` (a `thread_race` pattern), yet the Variable Race detector
emits nothing, because `.start()` contains none of the case-sensitive
indicators consulted by `_is_in_threaded_context`. -/
theorem variable_race_claim_counterexample :
    searchOptBy (compoundAt 43) (str ("counter += 1")) = some (str ("counter")) ∧
    matchLit (".start()") (str ("t.start()")) = true ∧
    detect_variable_races (str ("f")) exC1 = [] := by
  decide

/-- C1 (amended): a line matching a variable_race pattern with capture `v`
produces the MEDIUM Variable Race finding naming `v` if and only if some
line of the file contains one of the case-sensitive indicators
`threading`, `Thread`, `concurrent`, `asyncio`; and under that condition
the line `counter += 1` produces exactly one finding at its own line
number, MEDIUM, naming `counter`. -/
theorem variable_race_threaded_indicator_iff (fp : Line) (lines : List Line)
    (i : Nat) (line : Line) (hline : lines[i]? = some line) :
    (∀ m ∈ varMatchers, ∀ v, m line = some v →
      (varFinding fp (i + 1) v line ∈ detect_variable_races fp lines ↔
        is_in_threaded_context lines = true)) ∧
    (line = str ("counter += 1") → is_in_threaded_context lines = true →
      (detect_variable_races fp lines).filter (fun c => c.line_number == i + 1) =
        [⟨fp, i + 1, str ("Variable Race"), varDesc (str ("counter")), str ("MEDIUM"),
          str ("counter += 1"), varRecs⟩]) := by
  constructor
  · intro m hm v hv
    constructor
    · intro hmem
      cases hctx : is_in_threaded_context lines with
      | true => rfl
      | false =>
        rw [detect_variable_races, perAux_nil (varInner_nil hctx)] at hmem
        exact absurd hmem (List.not_mem_nil _)
    · intro hctx
      rw [detect_variable_races]
      refine perAux_mem_of lines 1 i line _ hline ?_
      rw [Nat.add_comm 1 i]
      exact varInner_mem_of hm hv hctx
  · intro hl hctx
    subst hl
    rw [detect_variable_races,
      perAux_filter_at (varInner_line_number fp lines) lines 1 (i + 1)
        (str ("counter += 1")) (by omega) (by simpa using hline)]
    have m1 : searchOptBy (compoundAt 43) (str ("counter += 1")) =
        some (str ("counter")) := by decide
    have m2 : searchOptBy (compoundAt 45) (str ("counter += 1")) = none := by decide
    have m3 : searchOptBy (compoundAt 42) (str ("counter += 1")) = none := by decide
    have m4 : searchOptBy (compoundAt 47) (str ("counter += 1")) = none := by decide
    have m5 : searchOptBy selfAssignAt (str ("counter += 1")) = none := by decide
    rw [varInner, varMatchers]
    simp only [List.filterMap_cons, List.filterMap_nil, m1, m2, m3, m4, m5, hctx, if_true]
    rfl

/-- C1 (witness): on a concrete file with `counter += 1` and an
`import threading` line, the detector emits exactly the expected single
MEDIUM finding at line 1. -/
theorem variable_race_threaded_indicator_iff_witness :
    (detect_variable_races (str ("f")) exC1W).filter (fun c => c.line_number == 1) =
      [⟨str ("f"), 1, str ("Variable Race"), varDesc (str ("counter")), str ("MEDIUM"),
        str ("counter += 1"), varRecs⟩] :=
  (variable_race_threaded_indicator_iff (str ("f")) exC1W 0 (str ("counter += 1"))
    (by decide)).2 rfl (by decide)

/-! ### Claim C2 -/

/-- C2 (counterexample): with a `lock` token on line 1 and an open call on
line 11 — a distance of exactly 10 lines, inside the window
`[i - 10, i + 10]` asserted by the claim — the lock check still returns
false and a File Operation Race finding is emitted at line 11, because the
window the code actually scans starts at 1-based line `i - 9`. -/
theorem lock_window_claim_counterexample :
    check_for_locks exC2 11 = false ∧
    hasAnyKeyword lockKeywords (exC2[0]?.getD []) = true ∧
    (detect_file_races (str ("f")) exC2).filter (fun c => c.line_number == 11) =
      [fileFinding (str ("f")) 11 openFA] := by
  decide

/-- C2 (amended): the lock-presence check returns true if and only if some
0-based index `j` with `i ≤ j + 10` and `j < i + 10` (1-based lines
`i - 9` through `i + 10`, clipped to the file) holds a vocabulary term;
when it returns true, the File Operation Race detector emits nothing at
line `i`. -/
theorem lock_window_amended (fp : Line) (lines : List Line) (i : Nat) :
    (check_for_locks lines i = true ↔
      ∃ j, j < lines.length ∧ i ≤ j + 10 ∧ j < i + 10 ∧
        hasAnyKeyword lockKeywords (lines[j]?.getD []) = true) ∧
    (check_for_locks lines i = true →
      (detect_file_races fp lines).filter (fun c => c.line_number == i) = []) := by
  constructor
  · rw [check_for_locks, checkWindow_iff]
    constructor
    · rintro ⟨j, h1, h2, hp⟩
      exact ⟨j, by omega, by omega, by omega, hp⟩
    · rintro ⟨j, h1, h2, h3, hp⟩
      exact ⟨j, by omega, by omega, hp⟩
  · intro hcheck
    rw [detect_file_races]
    by_cases hi : 1 ≤ i ∧ i - 1 < lines.length
    · cases hx : lines[i - 1]? with
      | none =>
        exact absurd (List.getElem?_eq_none_iff.mp hx) (by omega)
      | some l =>
        rw [perAux_filter_at (fileInner_line_number fp lines) lines 1 i l
          (by omega) hx, hcheck]
        exact guardedInner_true _ _ _
    · exact perAux_filter_out (fileInner_line_number fp lines) lines 1 i (by omega)

/-- C2 (witness): with `lock` on line 1 and an open call on line 2, the
code window sees the lock and the detector emits nothing at line 2. -/
theorem lock_window_amended_witness :
    (detect_file_races (str ("f")) exC2W).filter (fun c => c.line_number == 2) = [] :=
  (lock_window_amended (str ("f")) exC2W 2).2 (by decide)

/-! ### Claim C3 -/

/-- C3 (confirmed): if line `i + 1` is exactly the open call and no line of
the claim window `[i + 1 - 10, i + 1 + 10]` holds a lock vocabulary term,
the File Operation Race detector emits exactly one finding at that line:
HIGH, with the stripped line as its snippet. -/
theorem open_call_single_finding (fp : Line) (lines : List Line) (i : Nat)
    (hline : lines[i]? = some openFA)
    (hclean : ∀ j, j < lines.length → i ≤ j + 10 → j ≤ i + 10 →
      hasAnyKeyword lockKeywords (lines[j]?.getD []) = false) :
    (detect_file_races fp lines).filter (fun c => c.line_number == i + 1) =
      [fileFinding fp (i + 1) openFA] := by
  have hcheck : check_for_locks lines (i + 1) = false := by
    cases hx : check_for_locks lines (i + 1) with
    | false => rfl
    | true =>
      rw [check_for_locks, checkWindow_iff] at hx
      obtain ⟨j, h1, h2, hp⟩ := hx
      rw [hclean j (by omega) (by omega) (by omega)] at hp
      exact absurd hp (by simp)
  rw [detect_file_races,
    perAux_filter_at (fileInner_line_number fp lines) lines 1 (i + 1) openFA
      (by omega) (by simpa using hline), hcheck]
  have m1 : matchCall ("open") openFA = true := by decide
  have m2 : matchCall ("write") openFA = false := by decide
  have m3 : matchCall ("read") openFA = false := by decide
  have m4 : matchCall ("f.write") openFA = false := by decide
  have m5 : matchCall ("f.read") openFA = false := by decide
  rw [guardedInner, fileMatchers]
  simp only [List.filterMap_cons, List.filterMap_nil, m1, m2, m3, m4, m5,
    if_true, Bool.false_eq_true, if_false]

/-- C3 (witness): a one-line file holding just the open call yields exactly
one HIGH File Operation Race finding at line 1. -/
theorem open_call_single_finding_witness :
    (detect_file_races (str ("f")) [openFA]).filter (fun c => c.line_number == 1) =
      [fileFinding (str ("f")) 1 openFA] :=
  open_call_single_finding (str ("f")) [openFA] 0 (by decide)
    (by
      intro j h1 _ _
      have h1' : j < 1 := by simpa using h1
      have h0 : j = 0 := by omega
      subst h0
      decide)

/-! ### Claim C4 -/

/-- C4 (counterexample): a threaded region `(1, 3)` is emitted for this
file and line 2 (`shared_data.append(item)`) lies inside it, yet the
Missing Lock detector emits nothing — the method-call line contains no `=`
and so does not match the generic mutation shape
`\w+\s*[+\-*on-slash]?=\s*\w+`. -/
theorem missing_lock_claim_counterexample :
    find_threaded_sections exC4 = [(1, 3)] ∧
    detect_missing_locks (str ("f")) exC4 = [] := by
  decide

/-- C4 (amended): for every emitted threaded region `(s, e)` and every line
`i` in `[s, e)` whose text matches the generic mutation shape, the Missing
Lock detector emits its HIGH finding at line `i`, with no suppressing
guard (no hypothesis about locks anywhere in the file). -/
theorem missing_lock_emitted (fp : Line) (lines : List Line) (s e i : Nat)
    (hse : (s, e) ∈ find_threaded_sections lines) (h1 : s ≤ i) (h2 : i < e)
    (hm : searchBy sharedShapeAt (lines[i - 1]?.getD []) = true) :
    missingFinding fp i (lines[i - 1]?.getD []) ∈ detect_missing_locks fp lines := by
  rw [detect_missing_locks, List.mem_flatten]
  refine ⟨(find_shared_resource_access lines s e).map (fun n =>
      missingFinding fp n (lines[n - 1]?.getD [])), ?_, ?_⟩
  · exact List.mem_map.mpr ⟨(s, e), hse, rfl⟩
  · refine List.mem_map.mpr ⟨i, ?_, rfl⟩
    rw [find_shared_resource_access, List.mem_filter]
    exact ⟨List.mem_range'_1.mpr (by omega), hm⟩

/-- C4 (witness): in a region opened by `threading.Thread` and closed by a
blank line, the assignment-shaped line 2 is flagged even though a lock
token occurs later in the file. -/
theorem missing_lock_emitted_witness :
    missingFinding (str ("f")) 2 (str ("x = y")) ∈
      detect_missing_locks (str ("f")) exC4W := by
  have h := missing_lock_emitted (str ("f")) exC4W 1 3 2 (by decide) (by decide)
    (by decide) (by decide)
  exact h

/-! ### Claim C5 -/

/-- C5 (confirmed): the threaded-region finder returns an ordered list of
non-overlapping 1-based pairs; each pair satisfies `start < end`, the line
at `start` contains a section keyword, the line at `end` is blank and is
the first blank line of the region (no line in `[start, end)` is blank),
and `end` lies within the file — so a region opened but never closed by a
blank line before end-of-file is never emitted. -/
theorem threaded_sections_invariants (lines : List Line) :
    List.Pairwise (fun a b => a.2 < b.1) (find_threaded_sections lines) ∧
    ∀ se ∈ find_threaded_sections lines,
      1 ≤ se.1 ∧ se.1 < se.2 ∧ se.2 ≤ lines.length ∧
      hasThreadKeyword (lines[se.1 - 1]?.getD []) = true ∧
      isBlankLine (lines[se.2 - 1]?.getD []) = true ∧
      ∀ k, se.1 ≤ k → k < se.2 → isBlankLine (lines[k - 1]?.getD []) = false := by
  have h := sectsAux_spec lines lines 1 none (le_refl 1) rfl
    (by intro s hs; exact absurd hs (by simp))
  rw [find_threaded_sections]
  exact ⟨h.2, fun se hse => (h.1 se hse).2⟩

/-- C5 (witness): on a concrete three-line file the emitted region `(1, 3)`
satisfies the invariants, instantiated at the interior line 2. -/
theorem threaded_sections_invariants_witness :
    1 < 3 ∧ 3 ≤ exC5.length ∧
    hasThreadKeyword (exC5[0]?.getD []) = true ∧
    isBlankLine (exC5[2]?.getD []) = true ∧
    isBlankLine (exC5[1]?.getD []) = false := by
  have h := (threaded_sections_invariants exC5).2 (1, 3) (by decide)
  exact ⟨h.2.1, h.2.2.1, h.2.2.2.1, h.2.2.2.2.1, h.2.2.2.2.2 2 (by decide) (by decide)⟩

/-! ### Claim C6 -/

/-- C6 (confirmed): for every scan result, the structured report summary
counts the whole list, and the HIGH, MEDIUM and LOW counts sum to the
total (every scan finding has severity HIGH or MEDIUM). -/
theorem report_summary_counts (fp : Line) (lines : List Line) :
    (jsonReport (scan_lines fp lines)).summary.total_conditions =
      (scan_lines fp lines).length ∧
    (jsonReport (scan_lines fp lines)).summary.high_severity +
      (jsonReport (scan_lines fp lines)).summary.medium_severity +
      (jsonReport (scan_lines fp lines)).summary.low_severity =
      (jsonReport (scan_lines fp lines)).summary.total_conditions :=
  ⟨rfl, count_partition (scan_lines fp lines) (scan_sev fp lines)⟩

/-! ### Claim C7 -/

/-- C7 (confirmed): the structured and the plain-text renderings of
`generate_report` carry identical total/high/medium/low counts and present
the same findings, in the same order, with the same per-finding fields. -/
theorem report_formats_agree (conds : List RaceCondition) :
    (jsonReport conds).summary.total_conditions = (textReport conds).total_found ∧
    (jsonReport conds).summary.high_severity = (textReport conds).high_count ∧
    (jsonReport conds).summary.medium_severity = (textReport conds).medium_count ∧
    (jsonReport conds).summary.low_severity = (textReport conds).low_count ∧
    (jsonReport conds).conditions.map (fun e =>
      (e.file_path, e.line_number, e.race_type, e.severity, e.description,
       e.code_snippet, e.recommendations)) =
    (textReport conds).blocks.map (fun b =>
      (b.loc_file, b.loc_line, b.block_type, b.block_severity, b.block_description,
       b.block_code, b.block_recs)) := by
  refine ⟨rfl, rfl, rfl, rfl, ?_⟩
  rw [jsonReport, textReport]
  simp only [List.map_map]
  rfl

/-! ### Claim C8 -/

/-- C8 (counterexample): lowercasing every line changes the scan outcome:
the original two-line file yields one MEDIUM Variable Race finding at line
1, while the lowercased file yields no findings at all — the
threaded-context indicators are matched case-sensitively. -/
theorem lowercase_claim_counterexample :
    (scan_lines (str ("f")) exC8).map sevTriple =
      [(1, str ("Variable Race"), str ("MEDIUM"))] ∧
    (scan_lines (str ("f")) (exC8.map lowerLine)).map sevTriple = [] := by
  decide

/-- C8 (amended): the regex-based matching of the File, Database and
Threading detectors, together with their windowed mitigation checks, is
case-insensitive: scanning the lowercased lines yields findings with the
same line numbers, categories and severities.  (The Variable Race and
Missing Lock detectors are excluded: their threaded-context indicators and
section keywords are matched case-sensitively.) -/
theorem lowercase_invariance_amended (fp : Line) (lines : List Line) :
    (detect_file_races fp (lines.map lowerLine)).map sevTriple =
      (detect_file_races fp lines).map sevTriple ∧
    (detect_database_races fp (lines.map lowerLine)).map sevTriple =
      (detect_database_races fp lines).map sevTriple ∧
    (detect_threading_races fp (lines.map lowerLine)).map sevTriple =
      (detect_threading_races fp lines).map sevTriple := by
  refine ⟨?_, ?_, ?_⟩
  · rw [detect_file_races, detect_file_races]
    refine perAux_map_triple (fun n l => ?_) lines 1
    apply guardedInner_map_triple
    · intro m hm; exact fileMatchers_lower hm l
    · exact check_for_locks_lower lines n
    · rfl
  · rw [detect_database_races, detect_database_races]
    refine perAux_map_triple (fun n l => ?_) lines 1
    apply guardedInner_map_triple
    · intro m hm; exact dbMatchers_lower hm l
    · exact check_for_transactions_lower lines n
    · rfl
  · rw [detect_threading_races, detect_threading_races]
    refine perAux_map_triple (fun n l => ?_) lines 1
    apply guardedInner_map_triple
    · intro m hm; exact threadMatchers_lower hm l
    · exact check_for_synchronization_lower lines n
    · rfl

/-! ### Claim C9 -/

/-- C9 (confirmed): when the file cannot be opened or decoded (the read
result is `none`, the `except` branch of `scan_file`), the scan returns
the empty finding list; in this total embedding no exception can
propagate to the caller. -/
theorem scan_file_unreadable_empty (fp : Line) : scan_file fp none = [] := rfl

/-! ### Claim C10 -/

/-- C10 (confirmed): a line containing `with` case-insensitively is never
flagged by the File Operation Race detector: the lock window includes the
line itself, and `with` is in the lock vocabulary. -/
theorem with_line_never_flagged (fp : Line) (lines : List Line) (i : Nat)
    (line : Line) (hline : lines[i]? = some line)
    (hw : hasSub (str ("with")) (lowerLine line) = true) :
    (detect_file_races fp lines).filter (fun c => c.line_number == i + 1) = [] := by
  have hilt : i < lines.length := (List.getElem?_eq_some.mp hline).1
  have hcheck : check_for_locks lines (i + 1) = true := by
    rw [check_for_locks, checkWindow_iff]
    refine ⟨i, by omega, by omega, ?_⟩
    rw [hline]
    show hasAnyKeyword lockKeywords line = true
    rw [hasAnyKeyword, List.any_eq_true]
    refine ⟨str ("with"), ?_, hw⟩
    rw [lockKeywords]
    simp
  rw [detect_file_races,
    perAux_filter_at (fileInner_line_number fp lines) lines 1 (i + 1) line
      (by omega) (by simpa using hline), hcheck]
  exact guardedInner_true _ _ _

/-- C10 (witness): the common idiom line `with open(x) as g:` produces no
File Operation Race finding. -/
theorem with_line_never_flagged_witness :
    (detect_file_races (str ("f")) exC10).filter (fun c => c.line_number == 1) = [] :=
  with_line_never_flagged (str ("f")) exC10 0 (str ("with open(x) as g:"))
    (by decide) (by decide)

end RaceTool
